import Mathlib

/-!
Verification development for the stream interpretation and stats-aggregation
engine of the `ralphwrapper` repository (`StreamParser` and its data model).

Modelling conventions, fixed once here:

* JavaScript values produced by `JSON.parse` are modelled by the inductive
  `Json` below.  JSON numbers are modelled as exact rationals; the token
  counters handled by the claims are small integers, on which IEEE double
  arithmetic is exact, so rational arithmetic agrees with the source.
* The possibly-absent result of a JavaScript property access (`undefined`)
  is modelled as `Option Json`, with `none` standing for `undefined`.
* A thrown JavaScript `TypeError` (e.g. reading a property of `null`, or
  calling `.filter` on a non-array) is modelled with `Except Unit`; the
  partially mutated state at the moment of the throw is kept, exactly as the
  `try { ... } catch { ... }` in `parseLine` keeps it.
* `new Date()` / `Date.now()`: every entry point takes the current time as an
  explicit `now : Nat` parameter; all date constructions inside one call are
  modelled with that one timestamp.
* A running token counter is `Option ℚ`: `some q` means the JavaScript field
  holds the number `q`; `none` means the counter was corrupted into a string
  by `+=` with a truthy non-numeric usage value (string concatenation), a
  state that is absorbing in JavaScript exactly as `none` is here.
* JavaScript string operations (`trim`, `toLowerCase`, `slice`) are modelled
  on Unicode scalar sequences (`List Char`); all inputs appearing in the
  claims are ASCII, where the two notions coincide.
-/

namespace RalphWrapper

/-! ## The JavaScript/JSON value model -/

inductive Json where
  | null
  | bool (b : Bool)
  | num (q : ℚ)
  | str (s : String)
  | arr (elems : List Json)
  | obj (fields : List (String × Json))

mutual

def Json.decEq : (a b : Json) → Decidable (a = b)
  | .null, .null => isTrue rfl
  | .bool x, .bool y =>
    if h : x = y then isTrue (by rw [h]) else isFalse (fun he => h (by cases he; rfl))
  | .num x, .num y =>
    if h : x = y then isTrue (by rw [h]) else isFalse (fun he => h (by cases he; rfl))
  | .str x, .str y =>
    if h : x = y then isTrue (by rw [h]) else isFalse (fun he => h (by cases he; rfl))
  | .arr xs, .arr ys =>
    match Json.decEqList xs ys with
    | isTrue h => isTrue (by rw [h])
    | isFalse h => isFalse (fun he => h (by cases he; rfl))
  | .obj xs, .obj ys =>
    match Json.decEqFields xs ys with
    | isTrue h => isTrue (by rw [h])
    | isFalse h => isFalse (fun he => h (by cases he; rfl))
  | .null, .bool _ => isFalse (fun h => nomatch h)
  | .null, .num _ => isFalse (fun h => nomatch h)
  | .null, .str _ => isFalse (fun h => nomatch h)
  | .null, .arr _ => isFalse (fun h => nomatch h)
  | .null, .obj _ => isFalse (fun h => nomatch h)
  | .bool _, .null => isFalse (fun h => nomatch h)
  | .bool _, .num _ => isFalse (fun h => nomatch h)
  | .bool _, .str _ => isFalse (fun h => nomatch h)
  | .bool _, .arr _ => isFalse (fun h => nomatch h)
  | .bool _, .obj _ => isFalse (fun h => nomatch h)
  | .num _, .null => isFalse (fun h => nomatch h)
  | .num _, .bool _ => isFalse (fun h => nomatch h)
  | .num _, .str _ => isFalse (fun h => nomatch h)
  | .num _, .arr _ => isFalse (fun h => nomatch h)
  | .num _, .obj _ => isFalse (fun h => nomatch h)
  | .str _, .null => isFalse (fun h => nomatch h)
  | .str _, .bool _ => isFalse (fun h => nomatch h)
  | .str _, .num _ => isFalse (fun h => nomatch h)
  | .str _, .arr _ => isFalse (fun h => nomatch h)
  | .str _, .obj _ => isFalse (fun h => nomatch h)
  | .arr _, .null => isFalse (fun h => nomatch h)
  | .arr _, .bool _ => isFalse (fun h => nomatch h)
  | .arr _, .num _ => isFalse (fun h => nomatch h)
  | .arr _, .str _ => isFalse (fun h => nomatch h)
  | .arr _, .obj _ => isFalse (fun h => nomatch h)
  | .obj _, .null => isFalse (fun h => nomatch h)
  | .obj _, .bool _ => isFalse (fun h => nomatch h)
  | .obj _, .num _ => isFalse (fun h => nomatch h)
  | .obj _, .str _ => isFalse (fun h => nomatch h)
  | .obj _, .arr _ => isFalse (fun h => nomatch h)

def Json.decEqList : (xs ys : List Json) → Decidable (xs = ys)
  | [], [] => isTrue rfl
  | [], _ :: _ => isFalse (fun h => nomatch h)
  | _ :: _, [] => isFalse (fun h => nomatch h)
  | x :: xs, y :: ys =>
    match Json.decEq x y with
    | isFalse h => isFalse (fun he => h (by cases he; rfl))
    | isTrue h1 =>
      match Json.decEqList xs ys with
      | isTrue h2 => isTrue (by rw [h1, h2])
      | isFalse h => isFalse (fun he => h (by cases he; rfl))

def Json.decEqFields : (xs ys : List (String × Json)) → Decidable (xs = ys)
  | [], [] => isTrue rfl
  | [], _ :: _ => isFalse (fun h => nomatch h)
  | _ :: _, [] => isFalse (fun h => nomatch h)
  | (k1, v1) :: xs, (k2, v2) :: ys =>
    if hk : k1 = k2 then
      match Json.decEq v1 v2 with
      | isFalse h => isFalse (fun he => h (by cases he; rfl))
      | isTrue h1 =>
        match Json.decEqFields xs ys with
        | isTrue h2 => isTrue (by rw [hk, h1, h2])
        | isFalse h => isFalse (fun he => h (by cases he; rfl))
    else isFalse (fun he => hk (by cases he; rfl))

end

instance : DecidableEq Json := Json.decEq

/-- Truthiness of a JavaScript value, as used by `if (...)` and `||`:
`null`, `false`, `0`, `NaN` and the empty string are falsy, everything else
(including every object and array) is truthy. -/
def truthy : Json → Bool
  | .null => false
  | .bool b => b
  | .num q => q != 0
  | .str s => s != ""
  | .arr _ => true
  | .obj _ => true

/-- Truthiness of a possibly-`undefined` value (`undefined` is falsy). -/
def truthyV : Option Json → Bool
  | none => false
  | some j => truthy j

/-- Property lookup on a JavaScript object literal.  `JSON.parse` keeps the
last of duplicate keys, so the lookup takes the last matching pair. -/
def objGet (fs : List (String × Json)) (k : String) : Option Json :=
  (fs.reverse.find? (fun p => p.1 == k)).map (fun p => p.2)

/-- Property access `j.k` on a value known not to be `null`/`undefined`:
objects look the key up, primitives and arrays yield `undefined` (none of the
keys the engine reads is a built-in property). -/
def jsGetFieldD (j : Json) (k : String) : Option Json :=
  match j with
  | .obj fs => objGet fs k
  | _ => none

/-- Property access `v.k` on an arbitrary value: throws a `TypeError` when
the base is `null` or `undefined`. -/
def jsGetField (v : Option Json) (k : String) : Except Unit (Option Json) :=
  match v with
  | none => .error ()
  | some .null => .error ()
  | some j => .ok (jsGetFieldD j k)

/-- Property access `v.k` at a program point where the base is already known
to be neither `null` nor `undefined` (a preceding access succeeded). -/
def jsGetFieldV (v : Option Json) (k : String) : Option Json :=
  match v with
  | none => none
  | some j => jsGetFieldD j k

/-- Optional-chaining access `v?.k`: `undefined` when the base is `null` or
`undefined`, a plain access otherwise. -/
def jsGetFieldOpt (v : Option Json) (k : String) : Option Json :=
  match v with
  | none => none
  | some .null => none
  | some j => jsGetFieldD j k

/-- The JavaScript expression `v || d` for a possibly-`undefined` `v` with a
known-defined fallback `d`. -/
def jsOrJ (v : Option Json) (d : Json) : Json :=
  match v with
  | none => d
  | some j => if truthy j then j else d

/-! ## JavaScript string helpers -/

/-- Whitespace as recognised by `String.prototype.trim` and the `\s` regex
class (the ASCII white-space characters and no-break space; the more exotic
Unicode space characters do not occur in this stream). -/
def isJsWs (c : Char) : Bool :=
  c == ' ' || c == '\t' || c == '\n' || c == '\r' || c == '\x0b' || c == '\x0c' ||
    c == ' '

def dropEndWhile (p : Char → Bool) (l : List Char) : List Char :=
  (l.reverse.dropWhile p).reverse

def jsTrimChars (l : List Char) : List Char :=
  dropEndWhile isJsWs (l.dropWhile isJsWs)

/-- The JavaScript `line.trim()`. -/
def jsTrim (s : String) : String :=
  (jsTrimChars s.data).asString

def listStartsWith : List Char → List Char → Bool
  | _, [] => true
  | [], _ :: _ => false
  | a :: as, b :: bs => a == b && listStartsWith as bs

/-- Substring containment, as in `String.prototype.includes`. -/
def listHasSub (sub : List Char) : List Char → Bool
  | [] => sub.isEmpty
  | c :: rest => listStartsWith (c :: rest) sub || listHasSub sub rest

def strHasSub (s sub : String) : Bool :=
  listHasSub sub.data s.data

/-- The JavaScript `s.toLowerCase()` (ASCII range; the heuristic substrings
searched for are ASCII). -/
def jsToLower (s : String) : String :=
  (s.data.map Char.toLower).asString

/-! ## The loop-marker pattern

The classifier matches the regular expression
`/={10,}\s*LOOP\s*(\d+)\s*={10,}/` by an unanchored leftmost search.  The
character classes of adjacent regex tokens are disjoint (`=` is neither
whitespace, a letter of `LOOP`, nor a digit), so the greedy backtracking-free
scan below is exactly the regex's behaviour. -/

def dropLit : List Char → List Char → Option (List Char)
  | [], r => some r
  | _ :: _, [] => none
  | c :: cs, d :: ds => if c == d then dropLit cs ds else none

def natOfDigits (ds : List Char) : Nat :=
  ds.foldl (fun a ch => a * 10 + (ch.toNat - '0'.toNat)) 0

/-- Attempt to match `={10,}\s*LOOP\s*(\d+)\s*={10,}` at the start of `l`,
returning the numeric value of the capture group. -/
def matchLoopAt (l : List Char) : Option Nat :=
  let eqs1 := l.takeWhile (fun c => c == '=')
  if eqs1.length < 10 then none
  else
    let r1 := (l.dropWhile (fun c => c == '=')).dropWhile isJsWs
    match dropLit ['L', 'O', 'O', 'P'] r1 with
    | none => none
    | some r2 =>
      let r3 := r2.dropWhile isJsWs
      let ds := r3.takeWhile Char.isDigit
      if ds.isEmpty then none
      else
        let r4 := (r3.dropWhile Char.isDigit).dropWhile isJsWs
        if (r4.takeWhile (fun c => c == '=')).length ≥ 10 then some (natOfDigits ds)
        else none

/-- Unanchored search: `trimmed.match(/={10,}\s*LOOP\s*(\d+)\s*={10,}/)`,
returning `parseInt` of the capture group of the leftmost match. -/
def findLoop : List Char → Option Nat
  | [] => none
  | c :: rest =>
    match matchLoopAt (c :: rest) with
    | some n => some n
    | none => findLoop rest

/-! ## A JSON parser (the semantics of `JSON.parse`) -/

def skipJWs (l : List Char) : List Char :=
  l.dropWhile (fun ch => ch == ' ' || ch == '\t' || ch == '\n' || ch == '\r')

def hexDigit (ch : Char) : Option Nat :=
  if '0' ≤ ch ∧ ch ≤ '9' then some (ch.toNat - '0'.toNat)
  else if 'a' ≤ ch ∧ ch ≤ 'f' then some (ch.toNat - 'a'.toNat + 10)
  else if 'A' ≤ ch ∧ ch ≤ 'F' then some (ch.toNat - 'A'.toNat + 10)
  else none

def escChar (e : Char) : Option Char :=
  if e == '"' then some '"'
  else if e == '\\' then some '\\'
  else if e == '/' then some '/'
  else if e == 'b' then some (Char.ofNat 8)
  else if e == 'f' then some (Char.ofNat 12)
  else if e == 'n' then some '\n'
  else if e == 'r' then some '\r'
  else if e == 't' then some '\t'
  else none

/-- String-body parser (after the opening quote), fuelled by the input
length. -/
def pStrChars : Nat → List Char → Option (List Char × List Char)
  | 0, _ => none
  | _ + 1, [] => none
  | f + 1, ch :: r =>
    if ch == '"' then some ([], r)
    else if ch == '\\' then
      match r with
      | [] => none
      | 'u' :: a :: b :: c2 :: d :: r3 =>
        match hexDigit a, hexDigit b, hexDigit c2, hexDigit d with
        | some ha, some hb, some hc, some hd =>
          match pStrChars f r3 with
          | some (cs, rest) =>
            some (Char.ofNat (((ha * 16 + hb) * 16 + hc) * 16 + hd) :: cs, rest)
          | none => none
        | _, _, _, _ => none
      | e :: r2 =>
        match escChar e with
        | some ce =>
          match pStrChars f r2 with
          | some (cs, rest) => some (ce :: cs, rest)
          | none => none
        | none => none
    else if ch.toNat < 32 then none
    else
      match pStrChars f r with
      | some (cs, rest) => some (ch :: cs, rest)
      | none => none

def ratPow10 (z : Int) : ℚ :=
  if 0 ≤ z then ((10 : ℚ) ^ z.toNat) else ((10 : ℚ) ^ (-z).toNat)⁻¹

def pNumExp (neg : Bool) (ids fds : List Char) (l : List Char) : Option (Json × List Char) :=
  let mk := fun (ex : Int) (rest : List Char) =>
    let mant : Int := (if neg then -1 else 1) * (natOfDigits (ids ++ fds) : Int)
    some (Json.num ((mant : ℚ) * ratPow10 (ex - (fds.length : Int))), rest)
  match l with
  | e :: r =>
    if e == 'e' || e == 'E' then
      let es := match r with
        | '+' :: rr => ((1 : Int), rr)
        | '-' :: rr => ((-1 : Int), rr)
        | _ => ((1 : Int), r)
      let eds := es.2.takeWhile Char.isDigit
      if eds.isEmpty then none
      else mk (es.1 * (natOfDigits eds : Int)) (es.2.dropWhile Char.isDigit)
    else mk 0 l
  | [] => mk 0 []

/-- JSON number grammar: `-?(0|[1-9][0-9]*)(\.[0-9]+)?([eE][+-]?[0-9]+)?`. -/
def pNum (l : List Char) : Option (Json × List Char) :=
  let p := match l with
    | '-' :: r => (true, r)
    | _ => (false, l)
  let ids := p.2.takeWhile Char.isDigit
  let l2 := p.2.dropWhile Char.isDigit
  if ids.isEmpty then none
  else if ids.length > 1 ∧ ids.headD '0' = '0' then none
  else
    match l2 with
    | '.' :: r =>
      let fds := r.takeWhile Char.isDigit
      if fds.isEmpty then none
      else pNumExp p.1 ids fds (r.dropWhile Char.isDigit)
    | _ => pNumExp p.1 ids [] l2

mutual

def pVal : Nat → List Char → Option (Json × List Char)
  | 0, _ => none
  | f + 1, l =>
    match skipJWs l with
    | [] => none
    | 'n' :: r =>
      match dropLit ['u', 'l', 'l'] r with
      | some rest => some (Json.null, rest)
      | none => none
    | 't' :: r =>
      match dropLit ['r', 'u', 'e'] r with
      | some rest => some (Json.bool true, rest)
      | none => none
    | 'f' :: r =>
      match dropLit ['a', 'l', 's', 'e'] r with
      | some rest => some (Json.bool false, rest)
      | none => none
    | '"' :: r =>
      match pStrChars (r.length + 1) r with
      | some (cs, rest) => some (Json.str cs.asString, rest)
      | none => none
    | '[' :: r =>
      match skipJWs r with
      | ']' :: rest => some (Json.arr [], rest)
      | _ =>
        match pElems f r with
        | some (vs, rest) => some (Json.arr vs, rest)
        | none => none
    | '{' :: r =>
      match skipJWs r with
      | '}' :: rest => some (Json.obj [], rest)
      | _ =>
        match pMembers f r with
        | some (ms, rest) => some (Json.obj ms, rest)
        | none => none
    | ch :: r => if ch == '-' || ch.isDigit then pNum (ch :: r) else none

def pElems : Nat → List Char → Option (List Json × List Char)
  | 0, _ => none
  | f + 1, l =>
    match pVal f l with
    | none => none
    | some (v, r) =>
      match skipJWs r with
      | ',' :: r2 =>
        match pElems f r2 with
        | some (vs, rest) => some (v :: vs, rest)
        | none => none
      | ']' :: r2 => some ([v], r2)
      | _ => none

def pMembers : Nat → List Char → Option (List (String × Json) × List Char)
  | 0, _ => none
  | f + 1, l =>
    match skipJWs l with
    | '"' :: r =>
      match pStrChars (r.length + 1) r with
      | none => none
      | some (ks, r2) =>
        match skipJWs r2 with
        | ':' :: r3 =>
          match pVal f r3 with
          | none => none
          | some (v, r4) =>
            match skipJWs r4 with
            | ',' :: r5 =>
              match pMembers f r5 with
              | some (ms, rest) => some ((ks.asString, v) :: ms, rest)
              | none => none
            | '}' :: r5 => some ([(ks.asString, v)], r5)
            | _ => none
        | _ => none
    | _ => none

end

/-- The semantics of `JSON.parse(s)`: `some` of the parsed document, `none`
when a `SyntaxError` is thrown.  The fuel bounds the number of parser calls;
each nested call is preceded by the consumption of at least one character, so
`4 * length + 16` calls always suffice. -/
def jsonParse (s : String) : Option Json :=
  match pVal (4 * s.data.length + 16) s.data with
  | some (v, rest) => if skipJWs rest = [] then some v else none
  | none => none

/-! ## The data model (`types.ts`) -/

structure ToolCallRecord where
  name : Json
  timestamp : Nat
  success : Bool
  duration : Option Int
deriving DecidableEq

structure LoopStats where
  iteration : Nat
  startTime : Nat
  totalInputTokens : Option ℚ
  totalOutputTokens : Option ℚ
  totalCacheReadTokens : Option ℚ
  totalCacheCreationTokens : Option ℚ
  toolCalls : List ToolCallRecord
  errors : List Json
  currentModel : Json
  sessionId : Json
  lastActivity : Nat
  lastCommitTime : Option Nat
deriving DecidableEq

structure PendingCall where
  name : Option Json
  startTime : Nat
deriving DecidableEq

abbrev PendingMap := List (Option Json × PendingCall)

inductive EventData where
  | loopMarker (iteration : Nat)
  | toolCall (name input id model : Option Json)
  | text (text : String) (model : Option Json)
  | toolResult (toolName : Option Json) (success : Bool) (content : Option Json)
      (duration : Option Int) (stdout stderr : Option Json)
  | unknownJson (msg : Json)
  | unknownText (text : String)
deriving DecidableEq

structure ParsedEvent where
  type : String
  data : EventData
  raw : String
  timestamp : Nat
deriving DecidableEq

/-- The mutable fields of `StreamParser` other than the chunk buffer. -/
structure EngineCore where
  stats : LoopStats
  pendingToolCalls : PendingMap
deriving DecidableEq

structure ParserState where
  buffer : String
  stats : LoopStats
  pendingToolCalls : PendingMap
deriving DecidableEq

def ParserState.core (st : ParserState) : EngineCore :=
  ⟨st.stats, st.pendingToolCalls⟩

def ParserState.withCore (st : ParserState) (c : EngineCore) : ParserState :=
  { buffer := st.buffer, stats := c.stats, pendingToolCalls := c.pendingToolCalls }

/-! ## The pending-call table (a JavaScript `Map`)

Keys are the raw `tool.id` values (possibly `undefined`).  JavaScript `Map`
keys compare with SameValueZero, which coincides with structural equality on
the strings and `undefined` occurring here; insertion order is preserved and
`set` on an existing key updates in place. -/

def mapGet (m : PendingMap) (k : Option Json) : Option PendingCall :=
  (m.find? (fun p => p.1 == k)).map (fun p => p.2)

def mapSet (m : PendingMap) (k : Option Json) (v : PendingCall) : PendingMap :=
  if m.any (fun p => p.1 == k) then
    m.map (fun p => if p.1 == k then (k, v) else p)
  else m ++ [(k, v)]

def mapDelete (m : PendingMap) (k : Option Json) : PendingMap :=
  m.filter (fun p => !(p.1 == k))

/-! ## The aggregation engine (`StreamParser`) -/

/-- `createInitialStats()`. -/
def createInitialStats (now : Nat) : LoopStats :=
  { iteration := 0
    startTime := now
    totalInputTokens := some 0
    totalOutputTokens := some 0
    totalCacheReadTokens := some 0
    totalCacheCreationTokens := some 0
    toolCalls := []
    errors := []
    currentModel := .str "unknown"
    sessionId := .str ""
    lastActivity := now
    lastCommitTime := none }

/-- The freshly constructed parser. -/
def initState (now : Nat) : ParserState :=
  { buffer := "", stats := createInitialStats now, pendingToolCalls := [] }

/-- `reset()`. -/
def reset (_st : ParserState) (now : Nat) : ParserState :=
  { buffer := "", stats := createInitialStats now, pendingToolCalls := [] }

/-- `getStats()` as a pure value: `{ ...this.stats }`.  The reference
structure of the spread copy (scalar fields by value, array fields by
reference) is modelled separately below for the snapshot-isolation claim. -/
def getStats (st : ParserState) : LoopStats :=
  st.stats

/-- The JavaScript `total += (v || 0)` on a token counter.  A `num` adds its
value, falsy values add `0`, `true` coerces to `1`; a truthy non-numeric
value turns the counter into a string (modelled as `none`), and a string
counter stays a string under any further `+=`. -/
def jsOrZeroNum : Option Json → Option ℚ
  | none => some 0
  | some .null => some 0
  | some (.bool false) => some 0
  | some (.bool true) => some 1
  | some (.num q) => some q
  | some (.str s) => if s = "" then some 0 else none
  | some (.arr _) => none
  | some (.obj _) => none

def jsAddCounter (t : Option ℚ) (v : Option Json) : Option ℚ :=
  match t, jsOrZeroNum v with
  | some a, some b => some (a + b)
  | _, _ => none

/-- `content.filter(c => c.type === tag)` for an assistant message:
`undefined`/`null` content short-circuits to `[]` via `?.` and `|| []`, an
array is filtered (the predicate throws on `null` items), and `.filter` on
any other value throws. -/
def filterTypeEq (tag : String) : List Json → Except Unit (List Json)
  | [] => .ok []
  | x :: rest =>
    match jsGetField (some x) "type" with
    | .error _ => .error ()
    | .ok tv =>
      match filterTypeEq tag rest with
      | .error _ => .error ()
      | .ok l => .ok (if tv == some (Json.str tag) then x :: l else l)

def jsFilterContent (tag : String) (contentV : Option Json) : Except Unit (List Json) :=
  match contentV with
  | none => .ok []
  | some .null => .ok []
  | some (.arr xs) => filterTypeEq tag xs
  | some _ => .error ()

/-- `for (const tool of toolUses) { if (tool.type === 'tool_use') pendingToolCalls.set(tool.id, { name: tool.name, startTime: new Date() }) }`. -/
def registerToolUses (pending : PendingMap) (toolUses : List Json) (now : Nat) : PendingMap :=
  toolUses.foldl
    (fun m tool =>
      if jsGetFieldD tool "type" == some (Json.str "tool_use") then
        mapSet m (jsGetFieldD tool "id") ⟨jsGetFieldD tool "name", now⟩
      else m)
    pending

/-- An element of `Array.prototype.join`: `null` and `undefined` render as
the empty string, other values as their JavaScript string conversion. -/
def jsStringOf : Json → String
  | .null => "null"
  | .bool b => if b then "true" else "false"
  | .num q => if q.den = 1 then toString q.num else toString q
  | .str s => s
  | .arr xs =>
    String.intercalate ","
      (xs.attach.map (fun x =>
        if x.1 = Json.null then "" else jsStringOf x.1))
  | .obj _ => "[object Object]"
decreasing_by
  have h := List.sizeOf_lt_of_mem x.2
  simp only [Json.arr.sizeOf_spec]
  omega

def joinElem : Option Json → String
  | none => ""
  | some .null => ""
  | some j => jsStringOf j

/-- `textContent.map(t => t.text).join('\n')`. -/
def joinTexts (textContent : List Json) : String :=
  String.intercalate "\n" (textContent.map (fun t => joinElem (jsGetFieldD t "text")))

/-- The `text`/`unknown` tail of `processAssistantMessage` (after the
tool-use check fell through). -/
def assistantTextEvent (c : EngineCore) (msg : Json) (mm : Option Json) (raw : String)
    (now : Nat) : EngineCore × Except Unit ParsedEvent :=
  match jsFilterContent "text" (jsGetFieldV mm "content") with
  | .error _ => (c, .error ())
  | .ok textContent =>
    if textContent.isEmpty then
      (c, .ok ⟨"unknown", .unknownJson msg, raw, now⟩)
    else
      (c, .ok ⟨"text", .text (joinTexts textContent) (jsGetFieldV mm "model"), raw, now⟩)

/-- The event returned by `processAssistantMessage` once the stats and the
pending table are updated: the first tool-use item if any, else text, else
unknown. -/
def assistantContentEvent (c : EngineCore) (msg : Json) (mm : Option Json)
    (toolUses : List Json) (raw : String) (now : Nat) : EngineCore × Except Unit ParsedEvent :=
  match toolUses with
  | tool :: _ =>
    if jsGetFieldD tool "type" == some (Json.str "tool_use") then
      (c, .ok ⟨"tool_call",
        .toolCall (jsGetFieldD tool "name") (jsGetFieldD tool "input")
          (jsGetFieldD tool "id") (jsGetFieldV mm "model"),
        raw, now⟩)
    else assistantTextEvent c msg mm raw now
  | [] => assistantTextEvent c msg mm raw now

/-- `processAssistantMessage`. -/
def processAssistantMessage (c : EngineCore) (msg : Json) (raw : String) (now : Nat) :
    EngineCore × Except Unit ParsedEvent :=
  match jsGetField (some msg) "message" with
  | .error _ => (c, .error ())
  | .ok mm =>
    match jsGetField mm "usage" with
    | .error _ => (c, .error ())
    | .ok usage =>
      let c1 :=
        if truthyV usage then
          { c with stats := { c.stats with
              totalInputTokens :=
                jsAddCounter c.stats.totalInputTokens (jsGetFieldV usage "input_tokens")
              totalOutputTokens :=
                jsAddCounter c.stats.totalOutputTokens (jsGetFieldV usage "output_tokens")
              totalCacheReadTokens :=
                jsAddCounter c.stats.totalCacheReadTokens
                  (jsGetFieldV usage "cache_read_input_tokens")
              totalCacheCreationTokens :=
                jsAddCounter c.stats.totalCacheCreationTokens
                  (jsGetFieldV usage "cache_creation_input_tokens") } }
        else c
      let c2 := { c1 with stats := { c1.stats with
          currentModel := jsOrJ (jsGetFieldV mm "model") c1.stats.currentModel
          sessionId := jsOrJ (jsGetFieldV (some msg) "session_id") c1.stats.sessionId } }
      match jsFilterContent "tool_use" (jsGetFieldV mm "content") with
      | .error _ => (c2, .error ())
      | .ok toolUses =>
        let c3 := { c2 with
          pendingToolCalls := registerToolUses c2.pendingToolCalls toolUses now }
        assistantContentEvent c3 msg mm toolUses raw now

/-- The body of the `tool_result` branch of `processUserMessage`'s loop. -/
def handleToolResult (c : EngineCore) (msg : Json) (r : Json) (raw : String) (now : Nat) :
    EngineCore × Except Unit ParsedEvent :=
  let tuid := jsGetFieldD r "tool_use_id"
  let pending := mapGet c.pendingToolCalls tuid
  let duration : Option Int := pending.map (fun p => (now : Int) - (p.startTime : Int))
  let isErr := truthyV (jsGetFieldD r "is_error")
  let pendingName : Option Json := pending.bind (fun p => p.name)
  let rcd : ToolCallRecord :=
    ⟨jsOrJ pendingName (Json.str "unknown"), now, !isErr, duration⟩
  let cA := { c with stats := { c.stats with toolCalls := c.stats.toolCalls ++ [rcd] } }
  let contentV := jsGetFieldD r "content"
  let finish := fun (cx : EngineCore) =>
    ({ cx with pendingToolCalls := mapDelete cx.pendingToolCalls tuid },
     Except.ok
       (⟨"tool_result",
         .toolResult pendingName (!isErr) contentV duration
           (jsGetFieldOpt (jsGetFieldD msg "tool_use_result") "stdout")
           (jsGetFieldOpt (jsGetFieldD msg "tool_use_result") "stderr"),
         raw, now⟩ : ParsedEvent))
  if isErr then
    match contentV with
    | some (.str s) =>
      finish { cA with stats := { cA.stats with
        errors := cA.stats.errors ++ [.str ((s.data.take 200).asString)] } }
    | some (.arr xs) =>
      finish { cA with stats := { cA.stats with
        errors := cA.stats.errors ++ [.arr (xs.take 200)] } }
    | _ => (cA, .error ())
  else
    if truthyV contentV then
      match contentV with
      | some (.str s) =>
        let lower := jsToLower s
        finish
          (if strHasSub lower "git push" || strHasSub lower "git commit" then
            { cA with stats := { cA.stats with lastCommitTime := some now } }
          else cA)
      | _ => (cA, .error ())
    else finish cA

/-- The loop of `processUserMessage`: find the first `tool_result` item; the
predicate read `result.type` throws on `null` items encountered before it. -/
def processToolResults (c : EngineCore) (msg : Json) (raw : String) (now : Nat) :
    List Json → EngineCore × Except Unit ParsedEvent
  | [] => (c, .ok ⟨"unknown", .unknownJson msg, raw, now⟩)
  | r :: rest =>
    match jsGetField (some r) "type" with
    | .error _ => (c, .error ())
    | .ok tv =>
      if tv == some (Json.str "tool_result") then handleToolResult c msg r raw now
      else processToolResults c msg raw now rest

/-- `const results = msg.message.content || []` followed by
`for (const result of results)`: a truthy non-iterable throws, a string
iterates its characters, falsy content gives the empty loop. -/
def userResultsIter (contentV : Option Json) : Except Unit (List Json) :=
  if truthyV contentV then
    match contentV with
    | some (.arr xs) => .ok xs
    | some (.str s) => .ok (s.data.map (fun ch => Json.str (String.singleton ch)))
    | _ => .error ()
  else .ok []

/-- `processUserMessage`. -/
def processUserMessage (c : EngineCore) (msg : Json) (raw : String) (now : Nat) :
    EngineCore × Except Unit ParsedEvent :=
  match jsGetField (some msg) "message" with
  | .error _ => (c, .error ())
  | .ok mm =>
    match jsGetField mm "content" with
    | .error _ => (c, .error ())
    | .ok contentV =>
      match userResultsIter contentV with
      | .error _ => (c, .error ())
      | .ok results => processToolResults c msg raw now results

/-- `processMessage`: stamps `lastActivity`, then dispatches on the
discriminator (reading it throws when the document is `null`). -/
def processMessage (c : EngineCore) (msg : Json) (raw : String) (now : Nat) :
    EngineCore × Except Unit ParsedEvent :=
  let c0 := { c with stats := { c.stats with lastActivity := now } }
  match jsGetField (some msg) "type" with
  | .error _ => (c0, .error ())
  | .ok tv =>
    if tv == some (Json.str "assistant") then processAssistantMessage c0 msg raw now
    else if tv == some (Json.str "user") then processUserMessage c0 msg raw now
    else (c0, .ok ⟨"unknown", .unknownJson msg, raw, now⟩)

/-- `parseLine`: empty after trim → no event; loop marker → set iteration;
otherwise `JSON.parse` inside `try`, with a thrown error (parse failure or a
`TypeError` escaping `processMessage`) caught and classified `unknown` with
the trimmed text as payload, keeping any state mutations made before the
throw. -/
def parseLine (st : ParserState) (line : String) (now : Nat) :
    ParserState × Option ParsedEvent :=
  let trimmed := jsTrim line
  if trimmed = "" then (st, none)
  else
    match findLoop trimmed.data with
    | some n =>
      ({ st with stats := { st.stats with iteration := n } },
       some ⟨"loop_marker", .loopMarker n, line, now⟩)
    | none =>
      match jsonParse trimmed with
      | some j =>
        match processMessage st.core j line now with
        | (c, .ok ev) => (st.withCore c, some ev)
        | (c, .error _) =>
          (st.withCore c, some ⟨"unknown", .unknownText trimmed, line, now⟩)
      | none => (st, some ⟨"unknown", .unknownText trimmed, line, now⟩)

/-! ## Chunk buffering (`parseChunk`) -/

/-- `buffer.split('\n')` (never empty; splitting the empty string gives
`[""]`, exactly as in JavaScript). -/
def splitNlChars : List Char → List (List Char)
  | [] => [[]]
  | c :: rest =>
    match splitNlChars rest with
    | [] => [[]]
    | h :: t => if c == '\n' then [] :: h :: t else (c :: h) :: t

def splitNl (s : String) : List String :=
  (splitNlChars s.data).map List.asString

/-- Sequential line feeding collecting the non-null events, the body of the
`for` loop of `parseChunk` and the line-at-a-time reference semantics. -/
def lineResults : ParserState → List String → Nat → ParserState × List ParsedEvent
  | st, [], _ => (st, [])
  | st, l :: ls, now =>
    let r1 := parseLine st l now
    let r2 := lineResults r1.1 ls now
    (r2.1, r1.2.toList ++ r2.2)

/-- `parseChunk`: append to the buffer, split on newlines, keep the final
(incomplete) piece as the new buffer, feed the complete lines. -/
def parseChunk (st : ParserState) (chunk : String) (now : Nat) :
    ParserState × List ParsedEvent :=
  let lines := splitNl (st.buffer ++ chunk)
  lineResults { st with buffer := lines.getLastD "" } lines.dropLast now

/-- Feeding a sequence of chunks through `parseChunk`, concatenating the
emitted events. -/
def feedChunks : ParserState → List String → Nat → ParserState × List ParsedEvent
  | st, [], _ => (st, [])
  | st, ck :: cks, now =>
    let r1 := parseChunk st ck now
    let r2 := feedChunks r1.1 cks now
    (r2.1, r1.2 ++ r2.2)

/-- Feeding a sequence of whole lines through `parseLine`, keeping only the
final state. -/
def processLines (st : ParserState) (lines : List String) (now : Nat) : ParserState :=
  (lineResults st lines now).1

def strJoin : List String → String
  | [] => ""
  | c :: cs => c ++ strJoin cs

/-! ## The reference structure of `getStats` (`return { ...this.stats }`)

The spread operator copies every field of `this.stats` by value into a fresh
record.  The scalar fields are therefore decoupled from the engine, but the
two array-valued fields (`toolCalls`, `errors`) are copied as references: the
snapshot and the engine afterwards share the same two array objects.  The
model below makes the references explicit as addresses into a store of
arrays, which is what the pure list-valued model above deliberately
abstracts away. -/

structure StatsObj where
  iteration : Nat
  startTime : Nat
  totalInputTokens : Option ℚ
  totalOutputTokens : Option ℚ
  totalCacheReadTokens : Option ℚ
  totalCacheCreationTokens : Option ℚ
  toolCallsRef : Nat
  errorsRef : Nat
  currentModel : Json
  sessionId : Json
  lastActivity : Nat
  lastCommitTime : Option Nat
deriving DecidableEq

/-- The store of live array objects, addressed by `Nat` references. -/
structure SnapHeap where
  recordArrays : List (Nat × List ToolCallRecord)
  errorArrays : List (Nat × List Json)
deriving DecidableEq

def heapRecords (h : SnapHeap) (ref : Nat) : List ToolCallRecord :=
  ((h.recordArrays.find? (fun p => p.1 == ref)).map (fun p => p.2)).getD []

def heapErrors (h : SnapHeap) (ref : Nat) : List Json :=
  ((h.errorArrays.find? (fun p => p.1 == ref)).map (fun p => p.2)).getD []

/-- An in-place `push` through a reference (the mutation a snapshot holder
can perform on a nested sequence). -/
def heapPushRecord (h : SnapHeap) (ref : Nat) (x : ToolCallRecord) : SnapHeap :=
  { h with recordArrays :=
      h.recordArrays.map (fun p => if p.1 == ref then (p.1, p.2 ++ [x]) else p) }

def heapPushError (h : SnapHeap) (ref : Nat) (x : Json) : SnapHeap :=
  { h with errorArrays :=
      h.errorArrays.map (fun p => if p.1 == ref then (p.1, p.2 ++ [x]) else p) }

/-- `getStats()` under the reference model: `{ ...this.stats }` builds a new
record copying each field, the two array references included. -/
def getStatsRef (engine : StatsObj) : StatsObj :=
  { iteration := engine.iteration
    startTime := engine.startTime
    totalInputTokens := engine.totalInputTokens
    totalOutputTokens := engine.totalOutputTokens
    totalCacheReadTokens := engine.totalCacheReadTokens
    totalCacheCreationTokens := engine.totalCacheCreationTokens
    toolCallsRef := engine.toolCallsRef
    errorsRef := engine.errorsRef
    currentModel := engine.currentModel
    sessionId := engine.sessionId
    lastActivity := engine.lastActivity
    lastCommitTime := engine.lastCommitTime }

/-! ## Canonical message shapes used by the correlation claims -/

/-- A tool-invocation content item with correlation id `X` and tool name `N`. -/
def mkToolUse (X N : String) : Json :=
  .obj [("type", .str "tool_use"), ("id", .str X), ("name", .str N)]

/-- An assistant message whose content is a single tool-invocation item. -/
def mkAssistantMsg (X N : String) : Json :=
  .obj [("type", .str "assistant"), ("message", .obj [("content", .arr [mkToolUse X N])])]

/-- A tool-result content item referencing id `X`, with content string `cc`
and error flag `err`. -/
def mkToolResultItem (X cc : String) (err : Bool) : Json :=
  .obj [("type", .str "tool_result"), ("tool_use_id", .str X), ("content", .str cc),
    ("is_error", .bool err)]

/-- A user message carrying the given content items. -/
def mkUserMsg (items : List Json) : Json :=
  .obj [("type", .str "user"), ("message", .obj [("content", .arr items)])]

/-! ## Helper lemmas about the pending-call table -/

lemma mapGet_mapSet_fresh (m : PendingMap) (k : Option Json) (v : PendingCall)
    (h : mapGet m k = none) : mapGet (mapSet m k v) k = some v := by
  have hf : m.find? (fun p => p.1 == k) = none := by
    unfold mapGet at h
    cases hf : m.find? (fun p => p.1 == k) with
    | none => rfl
    | some p => rw [hf] at h; simp at h
  have hany : m.any (fun p => p.1 == k) = false := by
    rw [List.any_eq_false]
    intro p hp hpk
    exact List.find?_eq_none.mp hf p hp hpk
  unfold mapSet
  rw [hany]
  unfold mapGet
  simp only [Bool.false_eq_true, if_false, List.find?_append, hf, Option.none_orElse]
  simp [List.find?]

lemma mapGet_mapDelete_self (m : PendingMap) (k : Option Json) :
    mapGet (mapDelete m k) k = none := by
  unfold mapGet mapDelete
  induction m with
  | nil => rfl
  | cons p m ih =>
    simp only [List.filter_cons]
    by_cases hp : (p.1 == k) = true
    · simpa [hp] using ih
    · have hp2 : (p.1 == k) = false := by
        cases hq : (p.1 == k) with
        | true => exact absurd hq hp
        | false => rfl
      simpa [hp2, List.find?_cons] using ih


/-! ## Frame lemmas: which state components each engine function can touch -/

lemma assistantTextEvent_fst (c : EngineCore) (msg : Json) (mm : Option Json)
    (raw : String) (now : Nat) : (assistantTextEvent c msg mm raw now).1 = c := by
  unfold assistantTextEvent
  split
  · rfl
  · split <;> rfl

lemma assistantContentEvent_fst (c : EngineCore) (msg : Json) (mm : Option Json)
    (toolUses : List Json) (raw : String) (now : Nat) :
    (assistantContentEvent c msg mm toolUses raw now).1 = c := by
  unfold assistantContentEvent
  split
  · split
    · rfl
    · exact assistantTextEvent_fst ..
  · exact assistantTextEvent_fst ..

lemma processAssistantMessage_iteration (c : EngineCore) (msg : Json) (raw : String)
    (now : Nat) :
    ((processAssistantMessage c msg raw now).1).stats.iteration = c.stats.iteration := by
  unfold processAssistantMessage
  repeat' split
  all_goals simp [assistantContentEvent_fst]

lemma handleToolResult_iteration (c : EngineCore) (msg r : Json) (raw : String) (now : Nat) :
    ((handleToolResult c msg r raw now).1).stats.iteration = c.stats.iteration := by
  unfold handleToolResult
  dsimp only
  repeat' split
  all_goals simp

lemma processToolResults_iteration (c : EngineCore) (msg : Json) (raw : String) (now : Nat)
    (results : List Json) :
    ((processToolResults c msg raw now results).1).stats.iteration = c.stats.iteration := by
  induction results with
  | nil => rfl
  | cons r rest ih =>
    unfold processToolResults
    split
    · rfl
    · split
      · exact handleToolResult_iteration ..
      · exact ih

lemma processUserMessage_iteration (c : EngineCore) (msg : Json) (raw : String) (now : Nat) :
    ((processUserMessage c msg raw now).1).stats.iteration = c.stats.iteration := by
  unfold processUserMessage
  split
  · rfl
  · split
    · rfl
    · split
      · rfl
      · exact processToolResults_iteration ..

lemma processMessage_iteration (c : EngineCore) (msg : Json) (raw : String) (now : Nat) :
    ((processMessage c msg raw now).1).stats.iteration = c.stats.iteration := by
  unfold processMessage
  split
  · rfl
  · split
    · exact processAssistantMessage_iteration ..
    · split
      · exact processUserMessage_iteration ..
      · rfl

/-- A single `parseLine` sets the iteration exactly when the trimmed line
matches the loop-marker pattern, and leaves it unchanged otherwise. -/
lemma parseLine_iteration (st : ParserState) (line : String) (now : Nat) :
    ((parseLine st line now).1).stats.iteration =
      (findLoop (jsTrim line).data).getD st.stats.iteration := by
  unfold parseLine
  by_cases ht : jsTrim line = ""
  · have hdata : (jsTrim line).data = [] := by rw [ht]
    simp [ht, hdata, findLoop]
  · simp only [ht, if_false]
    cases hl : findLoop (jsTrim line).data with
    | some n => simp [hl]
    | none =>
      simp only [hl, Option.getD_none]
      cases hj : jsonParse (jsTrim line) with
      | none => simp [hj]
      | some j =>
        simp only [hj]
        have hpi := processMessage_iteration st.core j line now
        rcases hp : processMessage st.core j line now with ⟨c2, ev⟩
        rw [hp] at hpi
        rcases ev with ev | ev <;>
          simpa [ParserState.withCore, ParserState.core] using hpi

/-! ## Step characterizations for the canonical message shapes -/

/-- Processing an assistant message whose content is a single tool-use item
and that carries no usage, model or session fields: it stamps `lastActivity`,
registers the pending call, and emits a `tool_call` event. -/
lemma processMessage_assistant_toolUse (c : EngineCore) (X N raw : String) (now : Nat) :
    processMessage c (mkAssistantMsg X N) raw now =
      (⟨{ c.stats with lastActivity := now },
        mapSet c.pendingToolCalls (some (.str X)) ⟨some (.str N), now⟩⟩,
       .ok ⟨"tool_call", .toolCall (some (.str N)) none (some (.str X)) none, raw, now⟩) := by
  simp [processMessage, processAssistantMessage, assistantContentEvent, mkAssistantMsg,
    mkToolUse, jsGetField, jsGetFieldD, jsGetFieldV, objGet, truthyV, truthy, jsOrJ,
    jsFilterContent, filterTypeEq, registerToolUses]

/-- Processing a user message whose first content item is a tool-result item
(for id `X`, content string `cc`, error flag `err`): the full effect on the
engine state and the emitted event, in terms of the pending-table lookup. -/
lemma processMessage_user_first_result (c : EngineCore) (X cc raw : String) (err : Bool)
    (ys : List Json) (now : Nat) :
    processMessage c (mkUserMsg (mkToolResultItem X cc err :: ys)) raw now =
      (⟨{ c.stats with
            lastActivity := now
            toolCalls := c.stats.toolCalls ++
              [⟨jsOrJ ((mapGet c.pendingToolCalls (some (.str X))).bind (fun p => p.name))
                  (.str "unknown"), now, !err,
                (mapGet c.pendingToolCalls (some (.str X))).map
                  (fun p => (now : Int) - (p.startTime : Int))⟩]
            errors :=
              if err then c.stats.errors ++ [.str ((cc.data.take 200).asString)]
              else c.stats.errors
            lastCommitTime :=
              if !err && (cc != "") &&
                  (strHasSub (jsToLower cc) "git push" || strHasSub (jsToLower cc) "git commit")
                then some now
              else c.stats.lastCommitTime },
        mapDelete c.pendingToolCalls (some (.str X))⟩,
       .ok ⟨"tool_result",
         .toolResult ((mapGet c.pendingToolCalls (some (.str X))).bind (fun p => p.name))
           (!err) (some (.str cc))
           ((mapGet c.pendingToolCalls (some (.str X))).map
             (fun p => (now : Int) - (p.startTime : Int)))
           none none,
         raw, now⟩) := by
  cases err with
  | true =>
    simp [processMessage, processUserMessage, processToolResults, handleToolResult,
      mkUserMsg, mkToolResultItem, jsGetField, jsGetFieldD, jsGetFieldOpt, objGet,
      userResultsIter, truthyV, truthy]
  | false =>
    by_cases hcc : cc = ""
    · simp [hcc, processMessage, processUserMessage, processToolResults, handleToolResult,
        mkUserMsg, mkToolResultItem, jsGetField, jsGetFieldD, jsGetFieldOpt, objGet,
        userResultsIter, truthyV, truthy]
    · cases hpush : strHasSub (jsToLower cc) "git push" <;>
        cases hcommit : strHasSub (jsToLower cc) "git commit" <;>
        simp [hcc, hpush, hcommit, processMessage, processUserMessage, processToolResults,
          handleToolResult, mkUserMsg, mkToolResultItem, jsGetField, jsGetFieldD,
          jsGetFieldOpt, objGet, userResultsIter, truthyV, truthy]

/-! ## Claim C5 -/

/-- C5: for every fresh id `X`, processing an assistant message containing a
tool-invocation item with id `X` (and truthy tool name `N`) followed by a
user message whose first tool-result references `X` appends exactly one
`ToolCallRecord` whose duration is present and whose name equals the
invocation's tool name; processing a tool-result referencing an id never
registered appends exactly one `ToolCallRecord` with name `"unknown"` and
absent duration. -/
theorem c5_round_trip_correlation :
    (∀ (st : ParserState) (X N cc raw1 raw2 : String) (err : Bool) (now1 now2 : Nat),
      N ≠ "" →
      mapGet st.pendingToolCalls (some (.str X)) = none →
      (processMessage (processMessage st.core (mkAssistantMsg X N) raw1 now1).1
          (mkUserMsg [mkToolResultItem X cc err]) raw2 now2).1.stats.toolCalls =
        st.stats.toolCalls ++
          [⟨.str N, now2, !err, some ((now2 : Int) - (now1 : Int))⟩]) ∧
    (∀ (st : ParserState) (Y cc raw : String) (err : Bool) (now : Nat),
      mapGet st.pendingToolCalls (some (.str Y)) = none →
      (processMessage st.core (mkUserMsg [mkToolResultItem Y cc err]) raw now).1.stats.toolCalls =
        st.stats.toolCalls ++ [⟨.str "unknown", now, !err, none⟩]) := by
  constructor
  · intro st X N cc raw1 raw2 err now1 now2 hN hfresh
    rw [processMessage_assistant_toolUse, processMessage_user_first_result]
    have hm :
        mapGet (mapSet st.pendingToolCalls (some (.str X)) ⟨some (.str N), now1⟩)
          (some (.str X)) = some ⟨some (.str N), now1⟩ :=
      mapGet_mapSet_fresh _ _ _ hfresh
    simp [hm, jsOrJ, truthy, hN, ParserState.core]
  · intro st Y cc raw err now hfresh
    rw [processMessage_user_first_result]
    simp [hfresh, jsOrJ, ParserState.core]

/-- Witness for C5 at concrete inputs. -/
theorem c5_round_trip_correlation_witness :
    (processMessage (processMessage (initState 0).core (mkAssistantMsg "t1" "Bash") "a" 3).1
        (mkUserMsg [mkToolResultItem "t1" "done" false]) "u" 9).1.stats.toolCalls =
      [⟨.str "Bash", 9, true, some 6⟩] :=
  (c5_round_trip_correlation.1 (initState 0) "t1" "Bash" "done" "a" "u" false 3 9
    (by decide) (by decide)).trans (by decide)

/-! ## Claim C8 -/

/-- C8: a user message whose first tool-result has the error flag set and
content string `cc` appends exactly one record with `success = false` and
appends the first at-most-200 characters of `cc` to the error list; with the
flag unset, `success = true` is recorded and the error list is unchanged. -/
theorem c8_error_result_recording :
    ∀ (st : ParserState) (X cc raw : String) (now : Nat) (ys : List Json),
      ((processMessage st.core (mkUserMsg (mkToolResultItem X cc true :: ys))
            raw now).1.stats.errors =
          st.stats.errors ++ [.str ((cc.data.take 200).asString)] ∧
        ∃ rcd : ToolCallRecord,
          (processMessage st.core (mkUserMsg (mkToolResultItem X cc true :: ys))
              raw now).1.stats.toolCalls =
            st.stats.toolCalls ++ [rcd] ∧ rcd.success = false) ∧
      ((processMessage st.core (mkUserMsg (mkToolResultItem X cc false :: ys))
            raw now).1.stats.errors =
          st.stats.errors ∧
        ∃ rcd : ToolCallRecord,
          (processMessage st.core (mkUserMsg (mkToolResultItem X cc false :: ys))
              raw now).1.stats.toolCalls =
            st.stats.toolCalls ++ [rcd] ∧ rcd.success = true) := by
  intro st X cc raw now ys
  constructor
  · rw [processMessage_user_first_result]
    exact ⟨by simp [ParserState.core], _, rfl, rfl⟩
  · rw [processMessage_user_first_result]
    exact ⟨by simp [ParserState.core], _, rfl, rfl⟩

/-! ## Claim C10 -/

/-- C10: a pending call is consumed by the first result that references it,
whether or not it was registered: after a user message whose first
tool-result carries id `X`, `X` is absent from the pending table; a second
message whose first tool-result also references `X` therefore appends a
record with name `"unknown"` and absent duration; and tool-result items
after the first leave the state and the event untouched. -/
theorem c10_pending_consumed_by_first_result :
    ∀ (st : ParserState) (X cc cc2 raw raw2 : String) (err err2 : Bool) (now now2 : Nat)
      (ys : List Json),
      mapGet (processMessage st.core (mkUserMsg [mkToolResultItem X cc err])
            raw now).1.pendingToolCalls (some (.str X)) = none ∧
      (processMessage (processMessage st.core (mkUserMsg [mkToolResultItem X cc err]) raw now).1
          (mkUserMsg [mkToolResultItem X cc2 err2]) raw2 now2).1.stats.toolCalls =
        (processMessage st.core (mkUserMsg [mkToolResultItem X cc err])
            raw now).1.stats.toolCalls ++
          [⟨.str "unknown", now2, !err2, none⟩] ∧
      processMessage st.core (mkUserMsg (mkToolResultItem X cc err :: ys)) raw now =
        processMessage st.core (mkUserMsg [mkToolResultItem X cc err]) raw now := by
  intro st X cc cc2 raw raw2 err err2 now now2 ys
  refine ⟨?_, ?_, ?_⟩
  · rw [processMessage_user_first_result]
    exact mapGet_mapDelete_self ..
  · rw [processMessage_user_first_result, processMessage_user_first_result]
    simp [mapGet_mapDelete_self, jsOrJ]
  · rw [processMessage_user_first_result, processMessage_user_first_result]

/-! ## Claim C4 -/

lemma jsAddCounter_map_num (t : ℚ) (v : Option ℚ) :
    jsAddCounter (some t) (v.map Json.num) = some (t + v.getD 0) := by
  cases v <;> simp [jsAddCounter, jsOrZeroNum]

/-- The four token counters after `processAssistantMessage`, in terms of the
usage structure: each is incremented by `+= (field || 0)` when the usage
value is truthy, and untouched otherwise. -/
lemma processAssistantMessage_totals (c : EngineCore) (msg : Json) (raw : String)
    (now : Nat) (mm usage : Option Json)
    (h1 : jsGetField (some msg) "message" = .ok mm)
    (h2 : jsGetField mm "usage" = .ok usage) :
    (processAssistantMessage c msg raw now).1.stats.totalInputTokens =
        (if truthyV usage then
          jsAddCounter c.stats.totalInputTokens (jsGetFieldV usage "input_tokens")
        else c.stats.totalInputTokens) ∧
      (processAssistantMessage c msg raw now).1.stats.totalOutputTokens =
        (if truthyV usage then
          jsAddCounter c.stats.totalOutputTokens (jsGetFieldV usage "output_tokens")
        else c.stats.totalOutputTokens) ∧
      (processAssistantMessage c msg raw now).1.stats.totalCacheReadTokens =
        (if truthyV usage then
          jsAddCounter c.stats.totalCacheReadTokens (jsGetFieldV usage "cache_read_input_tokens")
        else c.stats.totalCacheReadTokens) ∧
      (processAssistantMessage c msg raw now).1.stats.totalCacheCreationTokens =
        (if truthyV usage then
          jsAddCounter c.stats.totalCacheCreationTokens
            (jsGetFieldV usage "cache_creation_input_tokens")
        else c.stats.totalCacheCreationTokens) := by
  unfold processAssistantMessage
  rw [h1]
  dsimp only
  rw [h2]
  dsimp only
  by_cases htr : truthyV usage = true <;>
    rcases hf : jsFilterContent "tool_use" (jsGetFieldV mm "content") with e | l <;>
    simp [htr, hf, assistantContentEvent_fst]

/-- C4: for every valid assistant message, processing it increases each of
the four running token totals by exactly the value of the corresponding
usage field, an absent field contributing 0; an absent (or otherwise falsy)
usage structure contributes 0 to all four; and each total's increment
depends only on its own field. -/
theorem c4_token_totals :
    (∀ (c : EngineCore) (msg : Json) (raw : String) (now : Nat) (mm : Option Json)
        (u : List (String × Json)) (v1 v2 v3 v4 : Option ℚ) (t1 t2 t3 t4 : ℚ),
      jsGetField (some msg) "message" = .ok mm →
      jsGetField mm "usage" = .ok (some (.obj u)) →
      objGet u "input_tokens" = v1.map Json.num →
      objGet u "output_tokens" = v2.map Json.num →
      objGet u "cache_read_input_tokens" = v3.map Json.num →
      objGet u "cache_creation_input_tokens" = v4.map Json.num →
      c.stats.totalInputTokens = some t1 →
      c.stats.totalOutputTokens = some t2 →
      c.stats.totalCacheReadTokens = some t3 →
      c.stats.totalCacheCreationTokens = some t4 →
      ((processAssistantMessage c msg raw now).1.stats.totalInputTokens =
          some (t1 + v1.getD 0) ∧
        (processAssistantMessage c msg raw now).1.stats.totalOutputTokens =
          some (t2 + v2.getD 0) ∧
        (processAssistantMessage c msg raw now).1.stats.totalCacheReadTokens =
          some (t3 + v3.getD 0) ∧
        (processAssistantMessage c msg raw now).1.stats.totalCacheCreationTokens =
          some (t4 + v4.getD 0))) ∧
    (∀ (c : EngineCore) (msg : Json) (raw : String) (now : Nat) (mm usageV : Option Json),
      jsGetField (some msg) "message" = .ok mm →
      jsGetField mm "usage" = .ok usageV →
      truthyV usageV = false →
      ((processAssistantMessage c msg raw now).1.stats.totalInputTokens =
          c.stats.totalInputTokens ∧
        (processAssistantMessage c msg raw now).1.stats.totalOutputTokens =
          c.stats.totalOutputTokens ∧
        (processAssistantMessage c msg raw now).1.stats.totalCacheReadTokens =
          c.stats.totalCacheReadTokens ∧
        (processAssistantMessage c msg raw now).1.stats.totalCacheCreationTokens =
          c.stats.totalCacheCreationTokens)) := by
  constructor
  · intro c msg raw now mm u v1 v2 v3 v4 t1 t2 t3 t4 h1 h2 hv1 hv2 hv3 hv4 ht1 ht2 ht3 ht4
    obtain ⟨e1, e2, e3, e4⟩ := processAssistantMessage_totals c msg raw now mm _ h1 h2
    rw [e1, e2, e3, e4]
    simp [truthyV, truthy, jsGetFieldV, jsGetFieldD, hv1, hv2, hv3, hv4, ht1, ht2, ht3, ht4,
      jsAddCounter_map_num]
  · intro c msg raw now mm usageV h1 h2 htr
    obtain ⟨e1, e2, e3, e4⟩ := processAssistantMessage_totals c msg raw now mm _ h1 h2
    rw [e1, e2, e3, e4]
    simp [htr]

/-- Witness for C4 at a concrete assistant message. -/
theorem c4_token_totals_witness :
    (processAssistantMessage ⟨createInitialStats 0, []⟩
        (.obj [("type", .str "assistant"),
          ("message", .obj [("usage",
            .obj [("input_tokens", .num 5), ("output_tokens", .num 7)])])])
        "r" 2).1.stats.totalInputTokens = some 5 := by
  have h := (c4_token_totals.1 ⟨createInitialStats 0, []⟩
    (.obj [("type", .str "assistant"),
      ("message", .obj [("usage",
        .obj [("input_tokens", .num 5), ("output_tokens", .num 7)])])])
    "r" 2 (some (.obj [("usage", .obj [("input_tokens", .num 5), ("output_tokens", .num 7)])]))
    [("input_tokens", .num 5), ("output_tokens", .num 7)]
    (some 5) (some 7) none none 0 0 0 0
    rfl rfl rfl rfl rfl rfl rfl rfl rfl rfl).1
  simpa using h

/-! ## Claims C2, C3, C6, C7 -/

/-- A parsed JSON document lacking the assistant/user discriminator: either
reading `msg.type` throws (`null`), or the value read is neither
`"assistant"` nor `"user"`. -/
def lacksDiscriminator (j : Json) : Bool :=
  match jsGetField (some j) "type" with
  | .error _ => true
  | .ok tv => !(tv == some (Json.str "assistant")) && !(tv == some (Json.str "user"))

/-- A non-blank line that is neither a loop marker nor parseable JSON is
classified `unknown` with the trimmed text as payload and leaves the whole
state untouched. -/
lemma parseLine_notJson (st : ParserState) (line : String) (now : Nat)
    (h1 : jsTrim line ≠ "") (h2 : findLoop (jsTrim line).data = none)
    (h3 : jsonParse (jsTrim line) = none) :
    parseLine st line now = (st, some ⟨"unknown", .unknownText (jsTrim line), line, now⟩) := by
  unfold parseLine
  simp [h1, h2, h3]

/-- C2 (amended): a line classified `unknown` changes no snapshot field other
than the last-activity timestamp; the timestamp is updated when the line is
valid JSON lacking the assistant/user discriminator, while a non-JSON text
line leaves the whole state (last-activity included) unchanged. -/
theorem c2_unknown_lines_frame :
    (∀ (st : ParserState) (line : String) (now : Nat),
      jsTrim line ≠ "" →
      findLoop (jsTrim line).data = none →
      jsonParse (jsTrim line) = none →
      parseLine st line now =
        (st, some ⟨"unknown", .unknownText (jsTrim line), line, now⟩)) ∧
    (∀ (st : ParserState) (line : String) (now : Nat) (j : Json),
      findLoop (jsTrim line).data = none →
      jsonParse (jsTrim line) = some j →
      lacksDiscriminator j = true →
      (parseLine st line now).1 =
        { st with stats := { st.stats with lastActivity := now } }) := by
  constructor
  · exact parseLine_notJson
  · intro st line now j h2 hj hd
    have h1 : jsTrim line ≠ "" := by
      intro h
      rw [h, (by decide : jsonParse "" = none)] at hj
      simp at hj
    unfold parseLine
    simp only [h1, if_false, h2, hj]
    unfold processMessage
    rcases hjt : jsGetField (some j) "type" with e | tv
    · cases st
      simp [ParserState.withCore, ParserState.core]
    · unfold lacksDiscriminator at hd
      rw [hjt] at hd
      simp only [Bool.and_eq_true, Bool.not_eq_eq_eq_not, Bool.not_true,
        beq_eq_false_iff_ne, ne_eq] at hd
      cases st
      simp [hd.1, hd.2, ParserState.withCore, ParserState.core]

/-- Witness for the amended C2 at a concrete non-JSON line. -/
theorem c2_unknown_lines_frame_witness :
    parseLine (initState 0) "zzz" 4 =
      (initState 0, some ⟨"unknown", .unknownText "zzz", "zzz", 4⟩) :=
  c2_unknown_lines_frame.1 (initState 0) "zzz" 4 (by decide) (by decide) (by decide)

/-- Counterexample to C2 as stated: the non-JSON line `"plain text line"` is
classified `unknown`, but the last-activity timestamp is NOT updated (it
stays at its initial value `0` although the line is processed at time `5`). -/
theorem c2_counterexample :
    (parseLine (initState 0) "plain text line" 5).2 =
      some ⟨"unknown", .unknownText "plain text line", "plain text line", 5⟩ ∧
    (parseLine (initState 0) "plain text line" 5).1.stats.lastActivity ≠ 5 := by
  decide

/-- C3 (amended): every line other than a loop marker leaves the iteration
unchanged, so the iteration is non-decreasing across a `parseLine` step
whenever the marker value (if the line is a marker) is at least the current
iteration. -/
theorem c3_iteration_conditionally_monotone :
    ∀ (st : ParserState) (line : String) (now : Nat),
      (∀ v, findLoop (jsTrim line).data = some v → st.stats.iteration ≤ v) →
      st.stats.iteration ≤ (parseLine st line now).1.stats.iteration := by
  intro st line now h
  rw [parseLine_iteration]
  cases hl : findLoop (jsTrim line).data with
  | none => simp
  | some v => simpa using h v hl

/-- Witness for the amended C3. -/
theorem c3_iteration_conditionally_monotone_witness :
    (initState 0).stats.iteration ≤
      (parseLine (initState 0) "========== LOOP 5 ==========" 1).1.stats.iteration :=
  c3_iteration_conditionally_monotone (initState 0) "========== LOOP 5 ==========" 1
    (fun v _ => Nat.zero_le v)

/-- Counterexample to C3 as stated: processing the marker `LOOP 7` and then
the marker `LOOP 3` yields consecutive snapshots whose iteration strictly
decreases. -/
theorem c3_counterexample :
    (getStats (parseLine (parseLine (initState 0) "========== LOOP 7 ==========" 1).1
        "========== LOOP 3 ==========" 2).1).iteration <
      (getStats (parseLine (initState 0) "========== LOOP 7 ==========" 1).1).iteration := by
  decide

/-- Iteration after a sequence of lines equals the value of the last
loop-marker line, or the starting iteration when no line is a marker. -/
lemma processLines_iteration (lines : List String) (st : ParserState) (now : Nat) :
    (processLines st lines now).stats.iteration =
      (lines.filterMap (fun l => findLoop (jsTrim l).data)).getLastD st.stats.iteration := by
  induction lines generalizing st with
  | nil => rfl
  | cons l ls ih =>
    have step : processLines st (l :: ls) now = processLines (parseLine st l now).1 ls now := rfl
    rw [step, ih, parseLine_iteration, List.filterMap_cons]
    cases hl : findLoop (jsTrim l).data with
    | none => simp only [hl, Option.getD_none]
    | some v => simp only [hl, Option.getD_some, List.getLastD_cons]

/-- C6: the snapshot's iteration equals the number carried by the most
recently processed loop-marker line, or `0` if none was processed since
construction or the last `reset`; classifying
`"========== LOOP 7 =========="` yields a `loop_marker` event with iteration
`7` and sets the iteration to `7`. -/
theorem c6_iteration_equals_last_marker :
    (∀ (lines : List String) (now0 now : Nat),
      (processLines (initState now0) lines now).stats.iteration =
        (lines.filterMap (fun l => findLoop (jsTrim l).data)).getLastD 0) ∧
    (∀ (st : ParserState) (lines : List String) (now0 now : Nat),
      (processLines (reset st now0) lines now).stats.iteration =
        (lines.filterMap (fun l => findLoop (jsTrim l).data)).getLastD 0) ∧
    parseLine (initState 0) "========== LOOP 7 ==========" 1 =
      ({ initState 0 with stats := { createInitialStats 0 with iteration := 7 } },
       some ⟨"loop_marker", .loopMarker 7, "========== LOOP 7 ==========", 1⟩) := by
  refine ⟨?_, ?_, ?_⟩
  · intro lines now0 now
    rw [processLines_iteration]
    rfl
  · intro st lines now0 now
    rw [processLines_iteration]
    rfl
  · decide

/-- C7: `parseLine` returns `null` exactly for blank lines; a non-blank line
that is neither a loop marker nor parseable JSON yields an `unknown` event
carrying the trimmed text, without raising; in particular
`"not json at all"` does so and leaves the state untouched. -/
theorem c7_blank_null_and_unknown_fallback :
    (∀ (st : ParserState) (line : String) (now : Nat),
      ((parseLine st line now).2 = none ↔ jsTrim line = "")) ∧
    (∀ (st : ParserState) (line : String) (now : Nat),
      jsTrim line ≠ "" →
      findLoop (jsTrim line).data = none →
      jsonParse (jsTrim line) = none →
      (parseLine st line now).2 =
        some ⟨"unknown", .unknownText (jsTrim line), line, now⟩) ∧
    parseLine (initState 0) "not json at all" 7 =
      (initState 0,
       some ⟨"unknown", .unknownText "not json at all", "not json at all", 7⟩) := by
  refine ⟨?_, ?_, ?_⟩
  · intro st line now
    unfold parseLine
    by_cases ht : jsTrim line = ""
    · simp [ht]
    · simp only [ht, iff_false, if_false]
      rcases hfl : findLoop (jsTrim line).data with _ | n
      · rcases hj : jsonParse (jsTrim line) with _ | j
        · simp [hfl, hj]
        · rcases hp : processMessage st.core j line now with ⟨c, e⟩
          rcases e with e | e <;> simp [hfl, hj, hp]
      · simp [hfl]
  · intro st line now h1 h2 h3
    rw [parseLine_notJson st line now h1 h2 h3]
  · decide

/-- Witness for C7 at a concrete non-JSON line. -/
theorem c7_blank_null_and_unknown_fallback_witness :
    (parseLine (initState 0) "abc def" 3).2 =
      some ⟨"unknown", .unknownText "abc def", "abc def", 3⟩ :=
  c7_blank_null_and_unknown_fallback.2.1 (initState 0) "abc def" 3
    (by decide) (by decide) (by decide)

/-! ## Claim C1 -/

/-- A concrete engine record for the snapshot-sharing counterexample. -/
def c1Engine : StatsObj :=
  { iteration := 1, startTime := 0, totalInputTokens := some 0, totalOutputTokens := some 0
    totalCacheReadTokens := some 0, totalCacheCreationTokens := some 0
    toolCallsRef := 0, errorsRef := 1, currentModel := .str "unknown", sessionId := .str ""
    lastActivity := 0, lastCommitTime := none }

/-- A concrete heap: the engine's (empty) `toolCalls` array lives at address
0 and its (empty) `errors` array at address 1. -/
def c1Heap : SnapHeap := ⟨[(0, [])], [(1, [])]⟩

def c1Record : ToolCallRecord := ⟨.str "Bash", 1, true, none⟩

/-- Counterexample to C1 as stated: pushing a record onto the `toolCalls`
sequence of one snapshot changes what the engine and a second snapshot
observe — the nested sequences of `{ ...this.stats }` are shared, not
copied. -/
theorem c1_counterexample :
    heapRecords (heapPushRecord c1Heap (getStatsRef c1Engine).toolCallsRef c1Record)
        c1Engine.toolCallsRef ≠ heapRecords c1Heap c1Engine.toolCallsRef ∧
    heapRecords (heapPushRecord c1Heap (getStatsRef c1Engine).toolCallsRef c1Record)
        (getStatsRef c1Engine).toolCallsRef ≠
      heapRecords c1Heap (getStatsRef c1Engine).toolCallsRef := by
  decide

/-- C1 (amended): two snapshots taken with no intervening apply are
structurally equal and the top-level record is a fresh value copy, but the
nested sequences are copied as references: both snapshots and the engine
share the same `toolCalls` and `errors` arrays, and an in-place mutation
through one snapshot's reference is observed through the engine's (and any
other snapshot's) reference. -/
theorem c1_snapshot_shallow_copy :
    ∀ (e : StatsObj) (tc : List ToolCallRecord) (er : List Json) (x : ToolCallRecord)
      (y : Json),
      getStatsRef { e with toolCallsRef := 0, errorsRef := 1 } =
          getStatsRef { e with toolCallsRef := 0, errorsRef := 1 } ∧
      (getStatsRef { e with toolCallsRef := 0, errorsRef := 1 }).toolCallsRef =
          ({ e with toolCallsRef := 0, errorsRef := 1 } : StatsObj).toolCallsRef ∧
      (getStatsRef { e with toolCallsRef := 0, errorsRef := 1 }).errorsRef =
          ({ e with toolCallsRef := 0, errorsRef := 1 } : StatsObj).errorsRef ∧
      heapRecords
          (heapPushRecord (⟨[(0, tc)], [(1, er)]⟩ : SnapHeap)
            (getStatsRef { e with toolCallsRef := 0, errorsRef := 1 }).toolCallsRef x)
          ({ e with toolCallsRef := 0, errorsRef := 1 } : StatsObj).toolCallsRef =
        tc ++ [x] ∧
      heapErrors
          (heapPushError (⟨[(0, tc)], [(1, er)]⟩ : SnapHeap)
            (getStatsRef { e with toolCallsRef := 0, errorsRef := 1 }).errorsRef y)
          ({ e with toolCallsRef := 0, errorsRef := 1 } : StatsObj).errorsRef =
        er ++ [y] := by
  intro e tc er x y
  refine ⟨rfl, rfl, rfl, ?_, ?_⟩ <;>
    simp [getStatsRef, heapPushRecord, heapPushError, heapRecords, heapErrors]

/-! ## Claim C9: splitting and buffering lemmas -/

lemma splitNlChars_ne_nil : ∀ l : List Char, splitNlChars l ≠ []
  | [] => by simp [splitNlChars]
  | c :: rest => by
    unfold splitNlChars
    split
    · simp
    · split <;> simp

/-- Gluing the trailing (incomplete) piece of one split onto the head of the
next split. -/
def mergeHead (x : List Char) : List (List Char) → List (List Char)
  | [] => [x]
  | h :: t => (x ++ h) :: t

lemma splitNlChars_append (a b : List Char) :
    splitNlChars (a ++ b) =
      (splitNlChars a).dropLast ++
        mergeHead ((splitNlChars a).getLastD []) (splitNlChars b) := by
  induction a with
  | nil =>
    rcases hb : splitNlChars b with _ | ⟨hd, tl⟩
    · exact absurd hb (splitNlChars_ne_nil b)
    · simp [splitNlChars, mergeHead, hb]
  | cons c a ih =>
    rcases hsa : splitNlChars a with _ | ⟨h0, t0⟩
    · exact absurd hsa (splitNlChars_ne_nil a)
    rcases hsb : splitNlChars b with _ | ⟨hb, tb⟩
    · exact absurd hsb (splitNlChars_ne_nil b)
    rw [hsa, hsb] at ih
    have lhs0 : splitNlChars ((c :: a) ++ b) =
        match splitNlChars (a ++ b) with
        | [] => [[]]
        | h :: t => if c == '\n' then [] :: h :: t else (c :: h) :: t := rfl
    have rhs0 : splitNlChars (c :: a) =
        if c == '\n' then [] :: h0 :: t0 else (c :: h0) :: t0 := by
      unfold splitNlChars
      rw [hsa]
    rw [lhs0, ih, rhs0]
    by_cases hc : (c == '\n') = true
    · cases t0 with
      | nil => simp [hc, mergeHead]
      | cons y t0x => simp [hc, mergeHead, List.getLastD_cons]
    · have hc2 : (c == '\n') = false := by
        cases hq : (c == '\n') with
        | true => exact absurd hq hc
        | false => rfl
      cases t0 with
      | nil => simp [hc2, mergeHead]
      | cons y t0x => simp [hc2, mergeHead, List.getLastD_cons]

lemma splitNlChars_no_nl (l : List Char) (h : '\n' ∉ l) : splitNlChars l = [l] := by
  induction l with
  | nil => rfl
  | cons c rest ih =>
    have hc : ¬ c = '\n' := fun hq => h (hq ▸ List.mem_cons_self c rest)
    have hr : '\n' ∉ rest := fun hq => h (List.mem_cons_of_mem c hq)
    unfold splitNlChars
    rw [ih hr]
    simp [hc]

lemma mem_splitNlChars_no_nl (l : List Char) :
    ∀ x ∈ splitNlChars l, '\n' ∉ x := by
  induction l with
  | nil =>
    intro x hx
    simp [splitNlChars] at hx
    simp [hx]
  | cons c rest ih =>
    intro x hx
    rcases hs : splitNlChars rest with _ | ⟨h0, t0⟩
    · exact absurd hs (splitNlChars_ne_nil rest)
    have hmem0 : '\n' ∉ h0 := ih h0 (hs ▸ List.mem_cons_self h0 t0)
    have hmemt : ∀ y ∈ t0, '\n' ∉ y := fun y hy => ih y (hs ▸ List.mem_cons_of_mem h0 hy)
    unfold splitNlChars at hx
    rw [hs] at hx
    by_cases hc : (c == '\n') = true
    · simp [hc] at hx
      rcases hx with rfl | rfl | hmem
      · simp
      · exact hmem0
      · exact hmemt x hmem
    · simp [hc] at hx
      rcases hx with rfl | hmem
      · intro hin
        rcases List.mem_cons.mp hin with h | h
        · exact hc (by simp [← h])
        · exact hmem0 h
      · exact hmemt x hmem

def mergeHeadS (x : String) : List String → List String
  | [] => [x]
  | h :: t => (x ++ h) :: t

lemma asString_append (a b : List Char) : (a ++ b).asString = a.asString ++ b.asString := rfl

lemma map_asString_mergeHead (x : List Char) (l : List (List Char)) :
    (mergeHead x l).map List.asString = mergeHeadS x.asString (l.map List.asString) := by
  cases l <;> simp [mergeHead, mergeHeadS, asString_append]

lemma getLastD_map {α β : Type} (f : α → β) (l : List α) (d : α) :
    (l.map f).getLastD (f d) = f (l.getLastD d) := by
  induction l generalizing d with
  | nil => rfl
  | cons a l ih => rw [List.map_cons, List.getLastD_cons, List.getLastD_cons, ih]

lemma getLastD_append_ne {α : Type} (l1 l2 : List α) (d : α) (h : l2 ≠ []) :
    (l1 ++ l2).getLastD d = l2.getLastD d := by
  rw [List.getLastD_eq_getLast?, List.getLastD_eq_getLast?, List.getLast?_append,
    List.getLast?_eq_getLast l2 h]
  rfl

lemma splitNl_ne_nil (s : String) : splitNl s ≠ [] := by
  unfold splitNl
  simp [splitNlChars_ne_nil]

lemma mergeHeadS_ne_nil (x : String) (l : List String) : mergeHeadS x l ≠ [] := by
  cases l <;> simp [mergeHeadS]

lemma splitNl_append (s t : String) :
    splitNl (s ++ t) =
      (splitNl s).dropLast ++ mergeHeadS ((splitNl s).getLastD "") (splitNl t) := by
  unfold splitNl
  rw [String.data_append, splitNlChars_append, List.map_append, map_asString_mergeHead,
    ← List.map_dropLast]
  have h : (([] : List Char).asString) = "" := rfl
  rw [← h, getLastD_map]

lemma splitNl_no_nl (s : String) (h : '\n' ∉ s.data) : splitNl s = [s] := by
  unfold splitNl
  rw [splitNlChars_no_nl _ h]
  rfl

lemma mem_splitNl_no_nl (s : String) : ∀ x ∈ splitNl s, '\n' ∉ x.data := by
  intro x hx
  rcases List.mem_map.mp hx with ⟨y, hy, rfl⟩
  exact mem_splitNlChars_no_nl s.data y hy

lemma getLastD_splitNl_no_nl (s : String) : '\n' ∉ ((splitNl s).getLastD "").data := by
  rcases h : splitNl s with _ | ⟨a, l⟩
  · exact absurd h (splitNl_ne_nil s)
  · have hm : (a :: l).getLastD "" ∈ a :: l := by
      rw [List.getLastD_eq_getLast?, List.getLast?_eq_getLast _ (List.cons_ne_nil a l)]
      exact List.getLast_mem _
    exact mem_splitNl_no_nl s _ (h ▸ hm)

/-- `parseLine` never reads the chunk buffer, and copies it through
unchanged. -/
lemma parseLine_buffer_set (st : ParserState) (b line : String) (now : Nat) :
    parseLine { st with buffer := b } line now =
      ({ (parseLine st line now).1 with buffer := b }, (parseLine st line now).2) := by
  cases st with
  | mk buf stats pend =>
    unfold parseLine
    by_cases ht : jsTrim line = ""
    · simp [ht]
    · simp only [ht, if_false]
      cases hfl : findLoop (jsTrim line).data with
      | some n => simp [hfl]
      | none =>
        simp only [hfl]
        cases hj : jsonParse (jsTrim line) with
        | none => simp [hj]
        | some j =>
          simp only [hj, ParserState.core]
          rcases hp : processMessage (⟨stats, pend⟩ : EngineCore) j line now with ⟨c, e⟩
          rcases e with e | e <;> simp [hp, ParserState.withCore]

lemma parseLine_buffer (st : ParserState) (line : String) (now : Nat) :
    (parseLine st line now).1.buffer = st.buffer := by
  have h := parseLine_buffer_set st st.buffer line now
  have he : ({ st with buffer := st.buffer } : ParserState) = st := rfl
  rw [he] at h
  rw [h]

lemma lineResults_buffer_set (ls : List String) (st : ParserState) (b : String) (now : Nat) :
    lineResults { st with buffer := b } ls now =
      ({ (lineResults st ls now).1 with buffer := b }, (lineResults st ls now).2) := by
  induction ls generalizing st with
  | nil => rfl
  | cons l ls ih =>
    show lineResults { st with buffer := b } (l :: ls) now = _
    unfold lineResults
    rw [parseLine_buffer_set]
    dsimp only
    rw [ih]

lemma lineResults_buffer (ls : List String) (st : ParserState) (now : Nat) :
    (lineResults st ls now).1.buffer = st.buffer := by
  have h := lineResults_buffer_set ls st st.buffer now
  have he : ({ st with buffer := st.buffer } : ParserState) = st := rfl
  rw [he] at h
  rw [h]

lemma lineResults_append (a b : List String) (st : ParserState) (now : Nat) :
    lineResults st (a ++ b) now =
      ((lineResults (lineResults st a now).1 b now).1,
       (lineResults st a now).2 ++ (lineResults (lineResults st a now).1 b now).2) := by
  induction a generalizing st with
  | nil => rfl
  | cons l a ih =>
    have e1 : lineResults st ((l :: a) ++ b) now =
        ((lineResults (parseLine st l now).1 (a ++ b) now).1,
         (parseLine st l now).2.toList ++
           (lineResults (parseLine st l now).1 (a ++ b) now).2) := rfl
    have e2 : lineResults st (l :: a) now =
        ((lineResults (parseLine st l now).1 a now).1,
         (parseLine st l now).2.toList ++ (lineResults (parseLine st l now).1 a now).2) := rfl
    rw [e1, e2, ih]
    simp [List.append_assoc]

/-- C9: feeding any sequence of chunks through `parseChunk` is equivalent to
feeding the newline-terminated lines of the concatenated input through
`parseLine` one at a time: the same events are emitted in the same order,
the same state results, and the text after the last newline is retained in
the buffer. -/
theorem c9_chunked_equals_line_feeding :
    ∀ (chunks : List String) (st : ParserState) (now : Nat),
      '\n' ∉ st.buffer.data →
      feedChunks st chunks now =
        lineResults
          { st with buffer := (splitNl (st.buffer ++ strJoin chunks)).getLastD "" }
          (splitNl (st.buffer ++ strJoin chunks)).dropLast now := by
  intro chunks
  induction chunks with
  | nil =>
    intro st now hb
    have h0 : st.buffer ++ strJoin [] = st.buffer := String.append_empty st.buffer
    rw [h0, splitNl_no_nl st.buffer hb]
    have he : ({ st with buffer := st.buffer } : ParserState) = st := rfl
    show (st, []) = _
    rw [show ([st.buffer].getLastD "") = st.buffer from rfl,
      show ([st.buffer].dropLast) = ([] : List String) from rfl, he]
    rfl
  | cons ck cks ih =>
    intro st now hb
    have hstep : feedChunks st (ck :: cks) now =
        ((feedChunks (parseChunk st ck now).1 cks now).1,
         (parseChunk st ck now).2 ++ (feedChunks (parseChunk st ck now).1 cks now).2) := rfl
    have hpc : parseChunk st ck now =
        lineResults { st with buffer := (splitNl (st.buffer ++ ck)).getLastD "" }
          (splitNl (st.buffer ++ ck)).dropLast now := rfl
    have hbuf1 : (parseChunk st ck now).1.buffer = (splitNl (st.buffer ++ ck)).getLastD "" := by
      rw [hpc, lineResults_buffer]
    have hb1 : '\n' ∉ (parseChunk st ck now).1.buffer.data := by
      rw [hbuf1]
      exact getLastD_splitNl_no_nl (st.buffer ++ ck)
    -- the split of the whole remaining input
    have hL : st.buffer ++ strJoin (ck :: cks) = (st.buffer ++ ck) ++ strJoin cks := by
      show st.buffer ++ (ck ++ strJoin cks) = (st.buffer ++ ck) ++ strJoin cks
      rw [String.append_assoc]
    have hM : splitNl ((parseChunk st ck now).1.buffer ++ strJoin cks) =
        mergeHeadS ((splitNl (st.buffer ++ ck)).getLastD "") (splitNl (strJoin cks)) := by
      rw [hbuf1, splitNl_append,
        splitNl_no_nl _ (getLastD_splitNl_no_nl (st.buffer ++ ck))]
      rfl
    have hsplit : splitNl (st.buffer ++ strJoin (ck :: cks)) =
        (splitNl (st.buffer ++ ck)).dropLast ++
          mergeHeadS ((splitNl (st.buffer ++ ck)).getLastD "") (splitNl (strJoin cks)) := by
      rw [hL, splitNl_append]
    have hMne : mergeHeadS ((splitNl (st.buffer ++ ck)).getLastD "") (splitNl (strJoin cks)) ≠
        [] := mergeHeadS_ne_nil _ _
    rw [hstep, ih _ now hb1, hM, hsplit,
      List.dropLast_append_of_ne_nil _ hMne, getLastD_append_ne _ _ _ hMne,
      lineResults_append, hpc]
    simp only [lineResults_buffer_set]

/-- Witness for C9: two chunks split mid-line and mid-chunk, fed from a
fresh parser, emit exactly the per-line events for `"abc"` and `"de"` and
leave `"f"` in the buffer. -/
theorem c9_chunked_equals_line_feeding_witness :
    ('\n' ∉ (initState 0).buffer.data) ∧
    feedChunks (initState 0) ["ab", "c\nde\nf"] 2 =
      lineResults { initState 0 with buffer := "f" } ["abc", "de"] 2 :=
  ⟨by decide,
    (c9_chunked_equals_line_feeding ["ab", "c\nde\nf"] (initState 0) 2 (by decide)).trans
      (by decide)⟩

end RalphWrapper
